import Mathlib

/-
Verification of the roblox client library (src/src/lib.rs).

The library performs HTTP GETs and then runs a pure response-processing
stage on each response body.  We embed that pure stage faithfully:

* `Json` models `serde_json::Value`.  Numbers are modelled as unbounded
  integers standing for in-range i64 values; a JSON number that is not an
  i64 behaves, for every accessor the client uses (`as_i64`, `as_str`,
  `as_array`), exactly like any other non-matching value, so nothing is
  lost for the properties proved here.
* `Json.get` models serde_json square-bracket indexing, which yields
  `Null` when the key is absent or the value is not an object.
* The transport layer is modelled by an `Except ReqwestError body`
  argument: `.error e` stands for a failed `send()`/`json()`/`text()`
  stage, `.ok body` for a decoded body.
* A Rust `Option::unwrap` panic is modelled by an outer `Option` layer on
  the operations that contain an `unwrap` (`get_user_roles`,
  `get_group_ranks`): `none` means the original code panics instead of
  returning.  Operations without an `unwrap` return plain
  `Except RobloxError _`.
-/

/-- JSON values as decoded by the client. -/
inductive Json where
  | null : Json
  | bool (b : Bool) : Json
  | num (n : Int) : Json
  | str (s : String) : Json
  | arr (elems : List Json) : Json
  | obj (fields : List (String × Json)) : Json

/-- Field names used by the client. -/
def kData : String := "data"

def kGroup : String := "group"

def kId : String := "id"

def kRole : String := "role"

def kRank : String := "rank"

def kRoles : String := "roles"

def kUsername : String := "Username"

def kIdCap : String := "Id"

/-- Square-bracket indexing on serde_json values: field lookup on objects,
yielding null when the key is absent or the value is not an object. -/
def Json.get (j : Json) (k : String) : Json :=
  match j with
  | Json.obj fields =>
      match List.lookup k fields with
      | some v => v
      | none => Json.null
  | _ => Json.null

/-- serde_json `Value::as_i64`. -/
def Json.as_i64 : Json → Option Int
  | Json.num n => some n
  | _ => none

/-- serde_json `Value::as_str`. -/
def Json.as_str : Json → Option String
  | Json.str s => some s
  | _ => none

/-- serde_json `Value::as_array`. -/
def Json.as_array : Json → Option (List Json)
  | Json.arr elems => some elems
  | _ => none

/-- Opaque stand-in for `reqwest::Error` (the transport failure cause). -/
structure ReqwestError where
  msg : String
deriving DecidableEq

/-- The library's error type (`RobloxError` in lib.rs). -/
inductive RobloxError where
  | Reqwest (e : ReqwestError) : RobloxError
  | MissingField : RobloxError
deriving DecidableEq

/-- The `HashMap<i64, i64>` of `get_user_roles`, modelled as an
association list whose key uniqueness is proved, not assumed. -/
abbrev RankMap := List (Int × Int)

/-- Lookup of a group id in a `RankMap`. -/
def lookupRank (k : Int) : RankMap → Option Int
  | [] => none
  | (k', v) :: rest => if k' = k then some v else lookupRank k rest

/-- `HashMap::insert`: replaces the value at an existing key, otherwise
adds a new entry. -/
def insertRank (m : RankMap) (k v : Int) : RankMap :=
  match m with
  | [] => [(k, v)]
  | (k', v') :: rest =>
      if k' = k then (k', v) :: rest else (k', v') :: insertRank rest k v

/-- `rank["group"]["id"].as_i64()` of a data-array element. -/
def gId (j : Json) : Option Int := ((j.get kGroup).get kId).as_i64

/-- `rank["role"]["rank"].as_i64()` of a data-array element. -/
def rRank (j : Json) : Option Int := ((j.get kRole).get kRank).as_i64

/-- The two unwrapped fields of one `get_user_roles` data-array element;
`none` when either `as_i64` fails, i.e. when the original code panics. -/
def roleEntry (j : Json) : Option (Int × Int) :=
  match gId j, rRank j with
  | some g, some r => some (g, r)
  | _, _ => none

/-- The insertion loop of `get_user_roles` (lib.rs lines 27-33). -/
def get_user_roles_aux (m : RankMap) : List Json → Option RankMap
  | [] => some m
  | j :: rest =>
      match roleEntry j with
      | some (g, r) => get_user_roles_aux (insertRank m g r) rest
      | none => none

/-- Body-processing stage of `get_user_roles` (lib.rs lines 26-37). -/
def get_user_roles_body (body : Json) : Option (Except RobloxError RankMap) :=
  match (body.get kData).as_array with
  | some resp => (get_user_roles_aux [] resp).map Except.ok
  | none => some (Except.error RobloxError.MissingField)

/-- `get_user_roles` including the transport stage. -/
def get_user_roles (resp : Except ReqwestError Json) :
    Option (Except RobloxError RankMap) :=
  match resp with
  | Except.error e => some (Except.error (RobloxError.Reqwest e))
  | Except.ok body => get_user_roles_body body

/-- Body-processing stage of `get_username_from_id` (lib.rs lines 44-46). -/
def get_username_from_id_body (body : Json) : Except RobloxError String :=
  match (body.get kUsername).as_str with
  | some r => Except.ok r
  | none => Except.error RobloxError.MissingField

/-- `get_username_from_id` including the transport stage. -/
def get_username_from_id (resp : Except ReqwestError Json) :
    Except RobloxError String :=
  match resp with
  | Except.error e => Except.error (RobloxError.Reqwest e)
  | Except.ok body => get_username_from_id_body body

/-- The fixed part of the `get_id_from_username` request URL. -/
def idFromUsernameBase : String :=
  "https://api.roblox.com/users/get-by-username?username="

/-- URL construction of `get_id_from_username` (lib.rs lines 50-53):
`format!` interpolates the username into the query string verbatim. -/
def get_id_from_username_url (username : String) : String :=
  idFromUsernameBase ++ username

/-- Body-processing stage of `get_id_from_username` (lib.rs line 56). -/
def get_id_from_username_body (body : Json) : Except RobloxError (Option Int) :=
  Except.ok (body.get kIdCap).as_i64

/-- `get_id_from_username` including the transport stage. -/
def get_id_from_username (resp : Except ReqwestError Json) :
    Except RobloxError (Option Int) :=
  match resp with
  | Except.error e => Except.error (RobloxError.Reqwest e)
  | Except.ok body => get_id_from_username_body body

/-- Body-processing stage of `has_asset` (lib.rs lines 65-68). -/
def has_asset_body (body : Json) : Except RobloxError Bool :=
  match (body.get kData).as_array with
  | some data => Except.ok (!data.isEmpty)
  | none => Except.ok false

/-- `has_asset` including the transport stage. -/
def has_asset (resp : Except ReqwestError Json) : Except RobloxError Bool :=
  match resp with
  | Except.error e => Except.error (RobloxError.Reqwest e)
  | Except.ok body => has_asset_body body

/-- Rust `str::contains` on the character lists of the strings: does the
second list occur contiguously inside the first? -/
def hasSubstr (body pat : List Char) : Bool :=
  match body with
  | [] => pat.isEmpty
  | c :: rest => pat.isPrefixOf (c :: rest) || hasSubstr rest pat

/-- `check_code` (lib.rs lines 71-76): the body is raw text, never JSON. -/
def check_code (resp : Except ReqwestError String) (code : String) :
    Except RobloxError Bool :=
  match resp with
  | Except.error e => Except.error (RobloxError.Reqwest e)
  | Except.ok body => Except.ok (hasSubstr body.data code.data)

/-- `r["rank"].as_i64().unwrap_or_default()`: a missing or non-integer
rank compares as 0 in `get_group_rank`. -/
def dRank (r : Json) : Int := ((r.get kRank).as_i64).getD 0

/-- Body-processing stage of `get_group_rank` (lib.rs lines 81-92). -/
def get_group_rank_body (body : Json) (rank_id : Int) :
    Except RobloxError (Option Json) :=
  match (body.get kRoles).as_array with
  | none => Except.ok none
  | some a =>
      match a.find? (fun r => dRank r == rank_id) with
      | some r => Except.ok (some r)
      | none => Except.ok none

/-- `get_group_rank` including the transport stage. -/
def get_group_rank (resp : Except ReqwestError Json) (rank_id : Int) :
    Except RobloxError (Option Json) :=
  match resp with
  | Except.error e => Except.error (RobloxError.Reqwest e)
  | Except.ok body => get_group_rank_body body rank_id

/-- The `filter_map` loop of `get_group_ranks` (lib.rs lines 107-116):
every element's rank is unwrapped (`none` = panic), and the element is
kept when the rank lies in the closed interval. -/
def rankFilter (min_rank max_rank : Int) : List Json → Option (List Json)
  | [] => some []
  | r :: rest =>
      match (r.get kRank).as_i64 with
      | none => none
      | some rank =>
          match rankFilter min_rank max_rank rest with
          | none => none
          | some tail =>
              some (if min_rank ≤ rank ∧ rank ≤ max_rank then r :: tail else tail)

/-- Body-processing stage of `get_group_ranks` (lib.rs lines 103-118). -/
def get_group_ranks_body (body : Json) (min_rank max_rank : Int) :
    Option (Except RobloxError (List Json)) :=
  match (body.get kRoles).as_array with
  | none => some (Except.ok [])
  | some a => (rankFilter min_rank max_rank a).map Except.ok

/-- `get_group_ranks` including the transport stage. -/
def get_group_ranks (resp : Except ReqwestError Json) (min_rank max_rank : Int) :
    Option (Except RobloxError (List Json)) :=
  match resp with
  | Except.error e => some (Except.error (RobloxError.Reqwest e))
  | Except.ok body => get_group_ranks_body body min_rank max_rank

/-- Specification-side view for claim C3: the `role.rank` of the last
data-array element whose `group.id` is `k`. -/
def lastRankFor (resp : List Json) (k : Int) : Option Int :=
  match resp with
  | [] => none
  | j :: rest =>
      match lastRankFor rest k with
      | some r => some r
      | none => if gId j = some k then rRank j else none

/-- Specification-side predicate for claim C5: the element has an integer
rank lying in the closed interval. -/
def rkInRange (min_rank max_rank : Int) (r : Json) : Bool :=
  match (r.get kRank).as_i64 with
  | some rank => decide (min_rank ≤ rank ∧ rank ≤ max_rank)
  | none => false

/-- Concrete JSON bodies and strings used to instantiate the theorems. -/
def strX : String := "x"

def strY : String := "y"

def roleJ1 : Json := Json.obj [(kRank, Json.num 1)]

def roleJX : Json := Json.obj [(kRank, Json.num 5), (kId, Json.str strX)]

def roleJY : Json := Json.obj [(kRank, Json.num 5), (kId, Json.str strY)]

def rolesBody4 : Json := Json.obj [(kRoles, Json.arr [roleJ1, roleJX, roleJY])]

def roleR2 : Json := Json.obj [(kRank, Json.num 2)]

def roleR3 : Json := Json.obj [(kRank, Json.num 3)]

def roleR5 : Json := Json.obj [(kRank, Json.num 5)]

def rolesBody5 : Json := Json.obj [(kRoles, Json.arr [roleJ1, roleR2, roleR3, roleR5])]

def badRolesBody : Json := Json.obj [(kData, Json.arr [Json.obj []])]

def badRanksBody : Json := Json.obj [(kRoles, Json.arr [Json.obj []])]

def noIdBody : Json := Json.obj []

def emptyDataBody : Json := Json.obj [(kData, Json.arr [])]

def oneDataBody : Json := Json.obj [(kData, Json.arr [Json.num 1])]

def uname1 : String := "a b"

def urlRaw1 : String := "https://api.roblox.com/users/get-by-username?username=a b"

def spaceStr : String := " "

def codeStr : String := "ABC123"

def bodyStr : String := "xxABC123yy"

def sPre : String := "xx"

def sPost : String := "yy"

def emptyCode : String := ""

theorem isPrefixOf_iff_exists (pat l : List Char) :
    pat.isPrefixOf l = true ↔ ∃ t, pat ++ t = l := by
  induction pat generalizing l with
  | nil => simp [List.isPrefixOf]
  | cons a as ih =>
    cases l with
    | nil => simp [List.isPrefixOf]
    | cons b bs =>
      simp only [List.isPrefixOf, Bool.and_eq_true, beq_iff_eq, ih, List.cons_append,
        List.cons.injEq]
      constructor
      · rintro ⟨rfl, t, rfl⟩
        exact ⟨t, rfl, rfl⟩
      · rintro ⟨t, rfl, rfl⟩
        exact ⟨rfl, t, rfl⟩

theorem hasSubstr_iff (body pat : List Char) :
    hasSubstr body pat = true ↔ ∃ s t, body = s ++ pat ++ t := by
  induction body with
  | nil =>
    constructor
    · intro h
      have hp : pat = [] := by
        cases pat with
        | nil => rfl
        | cons x xs => simp [hasSubstr, List.isEmpty] at h
      exact ⟨[], [], by simp [hp]⟩
    · rintro ⟨s, t, h⟩
      have hl := congrArg List.length h
      simp only [List.length_nil, List.length_append] at hl
      have hp : pat = [] := by
        cases pat with
        | nil => rfl
        | cons x xs => simp at hl; omega
      simp [hasSubstr, hp, List.isEmpty]
  | cons c rest ih =>
    simp only [hasSubstr, Bool.or_eq_true, isPrefixOf_iff_exists, ih]
    constructor
    · rintro (⟨t, h⟩ | ⟨s, t, rfl⟩)
      · exact ⟨[], t, by simp [h]⟩
      · exact ⟨c :: s, t, rfl⟩
    · rintro ⟨s, t, h⟩
      cases s with
      | nil =>
        left
        simp only [List.nil_append] at h
        exact ⟨t, h.symm⟩
      | cons x xs =>
        right
        simp only [List.cons_append] at h
        injection h with h1 h2
        exact ⟨xs, t, h2⟩

/-- Claim C6: `check_code` returns `Ok true` exactly when the code occurs
as a literal contiguous (hence case-sensitive) substring of the raw body
text; its only possible error is the transport error, never
`MissingField`, and no JSON parsing is involved (the operation consumes a
raw `String`). -/
theorem check_code_spec (resp : Except ReqwestError String) (code : String) :
    (∀ body, resp = Except.ok body →
      (check_code resp code = Except.ok true ↔ ∃ s t, body.data = s ++ code.data ++ t))
    ∧ check_code resp code ≠ Except.error RobloxError.MissingField
    ∧ (∀ e, resp = Except.error e →
        check_code resp code = Except.error (RobloxError.Reqwest e)) := by
  refine ⟨?_, ?_, ?_⟩
  · rintro body rfl
    simp only [check_code, Except.ok.injEq]
    exact hasSubstr_iff body.data code.data
  · cases resp with
    | error e => simp [check_code]
    | ok body => simp [check_code]
  · rintro e rfl
    rfl

/-- Witness for C6 at a concrete body and code. -/
theorem check_code_spec_witness :
    check_code (Except.ok bodyStr) codeStr = Except.ok true :=
  ((check_code_spec (Except.ok bodyStr) codeStr).1 bodyStr rfl).mpr
    ⟨sPre.data, sPost.data, by decide⟩

/-- Claim C10: with the empty string as the code, `check_code` answers
`Ok true` on every successfully fetched body, because the empty string is
a substring of every body. -/
theorem check_code_empty (body : String) :
    check_code (Except.ok body) emptyCode = Except.ok true := by
  have hd : emptyCode.data = ([] : List Char) := by decide
  have : hasSubstr body.data emptyCode.data = true :=
    (hasSubstr_iff body.data emptyCode.data).mpr ⟨[], body.data, by rw [hd]; simp⟩
  simp only [check_code, this]

/-- Claim C7: `get_id_from_username` yields `Ok none` when the `Id` field
is absent or non-numeric and `Ok (some n)` when it is the integer `n`; it
never returns an error from the body stage — unlike
`get_username_from_id`, which reports `MissingField` when `Username` is
absent or not a string. -/
theorem get_id_from_username_spec (body : Json) :
    ((body.get kIdCap).as_i64 = none → get_id_from_username_body body = Except.ok none)
    ∧ (∀ n, (body.get kIdCap).as_i64 = some n →
        get_id_from_username_body body = Except.ok (some n))
    ∧ (∀ e, get_id_from_username_body body ≠ Except.error e)
    ∧ (∀ b, (b.get kUsername).as_str = none →
        get_username_from_id_body b = Except.error RobloxError.MissingField) := by
  refine ⟨?_, ?_, ?_, ?_⟩
  · intro h
    simp [get_id_from_username_body, h]
  · intro n h
    simp [get_id_from_username_body, h]
  · intro e h
    simp [get_id_from_username_body] at h
  · intro b h
    simp [get_username_from_id_body, h]

/-- Witness for C7 at a body with no `Id` and no `Username` field. -/
theorem get_id_from_username_spec_witness :
    get_id_from_username_body noIdBody = Except.ok none ∧
    get_username_from_id_body noIdBody = Except.error RobloxError.MissingField :=
  ⟨(get_id_from_username_spec noIdBody).1 rfl,
   (get_id_from_username_spec noIdBody).2.2.2 noIdBody rfl⟩

/-- Claim C8: `has_asset` answers `Ok false` when `data` is absent or not
an array, `Ok false` when `data` is an empty array, `Ok true` when `data`
is a non-empty array, and never reports an error from the body stage. -/
theorem has_asset_spec (body : Json) :
    ((body.get kData).as_array = none → has_asset_body body = Except.ok false)
    ∧ ((body.get kData).as_array = some [] → has_asset_body body = Except.ok false)
    ∧ (∀ a, (body.get kData).as_array = some a → a ≠ [] →
        has_asset_body body = Except.ok true)
    ∧ (∀ e, has_asset_body body ≠ Except.error e) := by
  refine ⟨?_, ?_, ?_, ?_⟩
  · intro h
    simp [has_asset_body, h]
  · intro h
    simp [has_asset_body, h, List.isEmpty]
  · intro a h ha
    cases a with
    | nil => exact absurd rfl ha
    | cons x xs => simp [has_asset_body, h, List.isEmpty]
  · intro e h
    cases hh : (body.get kData).as_array with
    | none => simp [has_asset_body, hh] at h
    | some a => simp [has_asset_body, hh] at h

/-- Witness for C8 at the three kinds of bodies. -/
theorem has_asset_spec_witness :
    has_asset_body noIdBody = Except.ok false ∧
    has_asset_body emptyDataBody = Except.ok false ∧
    has_asset_body oneDataBody = Except.ok true :=
  ⟨(has_asset_spec noIdBody).1 rfl,
   (has_asset_spec emptyDataBody).2.1 rfl,
   (has_asset_spec oneDataBody).2.2.1 [Json.num 1] rfl (by simp)⟩

/-- Claim C2 (refuted): the username is NOT percent-encoded — the code
interpolates it verbatim into the query string, so the URL built for the
username containing a space contains that raw space (any percent-encoding
would have replaced it by a percent sequence). -/
theorem get_id_from_username_url_verbatim :
    (∀ u, get_id_from_username_url u = idFromUsernameBase ++ u)
    ∧ get_id_from_username_url uname1 = urlRaw1
    ∧ hasSubstr (get_id_from_username_url uname1).data spaceStr.data = true := by
  refine ⟨fun u => rfl, by decide, by decide⟩

theorem get_user_roles_aux_of_bad : ∀ (l : List Json),
    (∃ j ∈ l, roleEntry j = none) → ∀ m, get_user_roles_aux m l = none := by
  intro l
  induction l with
  | nil =>
    rintro ⟨j, hj, _⟩
    cases hj
  | cons j rest ih =>
    rintro ⟨j0, hj0, hnone⟩ m
    rcases List.mem_cons.mp hj0 with rfl | hmem
    · simp [get_user_roles_aux, hnone]
    · cases hre : roleEntry j with
      | none => simp [get_user_roles_aux, hre]
      | some gr =>
        obtain ⟨g, r⟩ := gr
        simp only [get_user_roles_aux, hre]
        exact ih ⟨j0, hmem, hnone⟩ (insertRank m g r)

theorem rankFilter_of_bad : ∀ (l : List Json),
    (∃ r ∈ l, (r.get kRank).as_i64 = none) →
    ∀ mn mx, rankFilter mn mx l = none := by
  intro l
  induction l with
  | nil =>
    rintro ⟨r, hr, _⟩
    cases hr
  | cons r rest ih =>
    rintro ⟨r0, hr0, hnone⟩ mn mx
    rcases List.mem_cons.mp hr0 with rfl | hmem
    · simp [rankFilter, hnone]
    · cases hv : (r.get kRank).as_i64 with
      | none => simp [rankFilter, hv]
      | some rank =>
        simp only [rankFilter, hv]
        rw [ih ⟨r0, hmem, hnone⟩ mn mx]

/-- Counterexample to claim C1 as stated: on a data array whose element
lacks `group.id` and `role.rank`, `get_user_roles` panics (modelled by
`none`) instead of returning the `MissingField` error value. -/
theorem get_user_roles_panic_cex :
    get_user_roles (Except.ok badRolesBody) = none ∧
    get_user_roles (Except.ok badRolesBody) ≠
      some (Except.error RobloxError.MissingField) := by
  refine ⟨rfl, ?_⟩
  intro h
  rw [show get_user_roles (Except.ok badRolesBody) = none from rfl] at h
  exact Option.noConfusion h

/-- Claim C1 (amended): transport failures and an absent or non-array
`data` field are returned as typed results (`Reqwest` wrapping the cause,
resp. `MissingField`); but a data-array element lacking an integer
`group.id` or `role.rank` makes `get_user_roles` panic instead of
returning, and a roles-array element lacking an integer `rank` makes
`get_group_ranks` panic instead of returning. -/
theorem roblox_error_paths :
    (∀ e, get_user_roles (Except.error e) =
        some (Except.error (RobloxError.Reqwest e)))
    ∧ (∀ body, (body.get kData).as_array = none →
        get_user_roles (Except.ok body) = some (Except.error RobloxError.MissingField))
    ∧ (∀ body l, (body.get kData).as_array = some l →
        (∃ j ∈ l, roleEntry j = none) → get_user_roles (Except.ok body) = none)
    ∧ (∀ e mn mx, get_group_ranks (Except.error e) mn mx =
        some (Except.error (RobloxError.Reqwest e)))
    ∧ (∀ body mn mx l, (body.get kRoles).as_array = some l →
        (∃ r ∈ l, (r.get kRank).as_i64 = none) →
        get_group_ranks (Except.ok body) mn mx = none) := by
  refine ⟨fun e => rfl, ?_, ?_, fun e mn mx => rfl, ?_⟩
  · intro body h
    simp [get_user_roles, get_user_roles_body, h]
  · intro body l h hex
    simp [get_user_roles, get_user_roles_body, h, get_user_roles_aux_of_bad l hex []]
  · intro body mn mx l h hex
    simp [get_group_ranks, get_group_ranks_body, h, rankFilter_of_bad l hex mn mx]

/-- Witness for the amended C1: a roles array with a field-less element
makes `get_group_ranks` panic. -/
theorem roblox_error_paths_witness :
    get_group_ranks (Except.ok badRanksBody) 1 10 = none :=
  roblox_error_paths.2.2.2.2 badRanksBody 1 10 [Json.obj []] rfl
    ⟨Json.obj [], List.Mem.head _, rfl⟩

theorem find?_append_cons (p : Json → Bool) (l₁ : List Json) (r : Json)
    (l₂ : List Json) (hr : p r = true) (hl : ∀ x ∈ l₁, p x = false) :
    (l₁ ++ r :: l₂).find? p = some r := by
  induction l₁ with
  | nil =>
    rw [List.nil_append]
    exact List.find?_cons_of_pos _ hr
  | cons x xs ih =>
    have hx : p x = false := hl x (List.Mem.head _)
    rw [List.cons_append, List.find?_cons_of_neg _ (by simp [hx])]
    exact ih (fun y hy => hl y (List.Mem.tail _ hy))

/-- Claim C4: `get_group_rank` returns `Ok (some r)` for the first roles
element `r` (in original array order) whose defaulted rank
(`unwrap_or_default`, i.e. 0 when missing or non-integer) equals the
requested rank, `Ok none` when the roles array is absent or no element
matches, and never an error from the body stage. -/
theorem get_group_rank_spec (body : Json) (rank_id : Int) :
    ((body.get kRoles).as_array = none →
      get_group_rank_body body rank_id = Except.ok none)
    ∧ (∀ a, (body.get kRoles).as_array = some a →
        ((∀ r ∈ a, dRank r ≠ rank_id) →
          get_group_rank_body body rank_id = Except.ok none)
        ∧ (∀ l₁ r l₂, a = l₁ ++ r :: l₂ → dRank r = rank_id →
            (∀ x ∈ l₁, dRank x ≠ rank_id) →
            get_group_rank_body body rank_id = Except.ok (some r)))
    ∧ (∀ e, get_group_rank_body body rank_id ≠ Except.error e) := by
  refine ⟨?_, ?_, ?_⟩
  · intro h
    simp [get_group_rank_body, h]
  · intro a ha
    constructor
    · intro hnone
      have hf : a.find? (fun r => dRank r == rank_id) = none :=
        List.find?_eq_none.mpr (fun x hx => by simp [hnone x hx])
      simp [get_group_rank_body, ha, hf]
    · intro l₁ r l₂ heq hr hl
      have hf : a.find? (fun r => dRank r == rank_id) = some r := by
        subst heq
        exact find?_append_cons _ l₁ r l₂ (by simp [hr]) (fun x hx => by simp [hl x hx])
      simp [get_group_rank_body, ha, hf]
  · intro e h
    cases hh : (body.get kRoles).as_array with
    | none => simp [get_group_rank_body, hh] at h
    | some a =>
      cases hf : a.find? (fun r => dRank r == rank_id) with
      | none => simp [get_group_rank_body, hh, hf] at h
      | some r => simp [get_group_rank_body, hh, hf] at h

/-- Witness for C4 at the spec's example: among ranks 1, 5 (id x), 5 (id
y) the element with id x is returned for rank 5. -/
theorem get_group_rank_spec_witness :
    get_group_rank_body rolesBody4 5 = Except.ok (some roleJX) :=
  ((get_group_rank_spec rolesBody4 5).2.1 [roleJ1, roleJX, roleJY] rfl).2
    [roleJ1] roleJX [roleJY] rfl (by decide) (by decide)

theorem lookupRank_insertRank (m : RankMap) (k v q : Int) :
    lookupRank q (insertRank m k v) = if k = q then some v else lookupRank q m := by
  induction m with
  | nil => simp [insertRank, lookupRank]
  | cons p rest ih =>
    obtain ⟨a, b⟩ := p
    by_cases hak : a = k
    · subst hak
      simp only [insertRank, if_pos rfl, lookupRank]
      by_cases haq : a = q
      · simp [haq]
      · simp [haq, lookupRank]
    · simp only [insertRank, if_neg hak, lookupRank, ih]
      by_cases haq : a = q
      · subst haq
        have hka : ¬ (k = a) := fun h => hak h.symm
        simp [hka]
      · simp [haq]

theorem insertRank_keys (m : RankMap) (k v : Int) :
    (insertRank m k v).map Prod.fst =
      if k ∈ m.map Prod.fst then m.map Prod.fst else m.map Prod.fst ++ [k] := by
  induction m with
  | nil => simp [insertRank]
  | cons p rest ih =>
    obtain ⟨a, b⟩ := p
    by_cases hak : a = k
    · subst hak
      simp [insertRank, List.mem_cons]
    · have hka : ¬ (k = a) := fun h => hak h.symm
      simp only [insertRank, if_neg hak, List.map_cons, ih]
      by_cases hk : k ∈ rest.map Prod.fst
      · simp [hk, List.mem_cons, hka]
      · simp [hk, List.mem_cons, hka]

theorem insertRank_mem_keys (m : RankMap) (k v q : Int) :
    q ∈ (insertRank m k v).map Prod.fst ↔ q = k ∨ q ∈ m.map Prod.fst := by
  rw [insertRank_keys]
  by_cases hk : k ∈ m.map Prod.fst
  · rw [if_pos hk]
    constructor
    · exact fun h => Or.inr h
    · rintro (rfl | h)
      · exact hk
      · exact h
  · rw [if_neg hk]
    simp [List.mem_append, List.mem_singleton, or_comm]

theorem insertRank_nodup (m : RankMap) (k v : Int)
    (h : (m.map Prod.fst).Nodup) : ((insertRank m k v).map Prod.fst).Nodup := by
  rw [insertRank_keys]
  by_cases hk : k ∈ m.map Prod.fst
  · rwa [if_pos hk]
  · rw [if_neg hk, List.nodup_append]
    refine ⟨h, List.nodup_singleton k, ?_⟩
    intro a ha hb
    rw [List.mem_singleton] at hb
    subst hb
    exact hk ha

theorem get_user_roles_aux_spec : ∀ (resp : List Json),
    (∀ j ∈ resp, (roleEntry j).isSome) → ∀ m,
    ∃ mOut, get_user_roles_aux m resp = some mOut
      ∧ (∀ q, lookupRank q mOut =
          match lastRankFor resp q with
          | some r => some r
          | none => lookupRank q m)
      ∧ (∀ q, q ∈ mOut.map Prod.fst ↔
          (∃ j ∈ resp, gId j = some q) ∨ q ∈ m.map Prod.fst)
      ∧ ((m.map Prod.fst).Nodup → (mOut.map Prod.fst).Nodup) := by
  intro resp
  induction resp with
  | nil =>
    intro _ m
    exact ⟨m, rfl, fun q => rfl, fun q => by simp, fun h => h⟩
  | cons j rest ih =>
    intro hwf m
    have hj : (roleEntry j).isSome := hwf j (List.Mem.head _)
    obtain ⟨gr, hgr⟩ := Option.isSome_iff_exists.mp hj
    obtain ⟨g, r⟩ := gr
    have hgid : gId j = some g ∧ rRank j = some r := by
      unfold roleEntry at hgr
      cases h1 : gId j <;> cases h2 : rRank j <;> rw [h1, h2] at hgr <;> simp_all
    obtain ⟨hg, hr⟩ := hgid
    have hwf2 : ∀ x ∈ rest, (roleEntry x).isSome :=
      fun x hx => hwf x (List.Mem.tail _ hx)
    obtain ⟨mOut, hrun, hlook, hmem, hnd⟩ := ih hwf2 (insertRank m g r)
    refine ⟨mOut, ?_, ?_, ?_, ?_⟩
    · simp [get_user_roles_aux, hgr, hrun]
    · intro q
      rw [hlook q]
      cases hlr : lastRankFor rest q with
      | some r2 => simp [lastRankFor, hlr]
      | none =>
        rw [lookupRank_insertRank]
        simp only [lastRankFor, hlr, hg, hr, Option.some.injEq]
        by_cases hq : g = q
        · simp [hq]
        · simp [hq]
    · intro q
      rw [hmem q, insertRank_mem_keys]
      simp only [List.exists_mem_cons_iff, hg, Option.some.injEq]
      constructor
      · rintro (h | rfl | h)
        · exact Or.inl (Or.inr h)
        · exact Or.inl (Or.inl rfl)
        · exact Or.inr h
      · rintro ((rfl | h) | h)
        · exact Or.inr (Or.inl rfl)
        · exact Or.inl h
        · exact Or.inr (Or.inr h)
    · intro hnodup
      exact hnd (insertRank_nodup m g r hnodup)

/-- Claim C3: on a well-formed data array, `get_user_roles` returns a
`RankMap` with pairwise-distinct keys, whose key set is exactly the set of
`group.id` values occurring in the array, and which maps each key to the
`role.rank` of the last array element carrying that `group.id`. -/
theorem get_user_roles_rankmap_spec (body : Json) (resp : List Json)
    (harr : (body.get kData).as_array = some resp)
    (hwf : ∀ j ∈ resp, (roleEntry j).isSome) :
    ∃ m, get_user_roles_body body = some (Except.ok m)
      ∧ (m.map Prod.fst).Nodup
      ∧ (∀ q, q ∈ m.map Prod.fst ↔ ∃ j ∈ resp, gId j = some q)
      ∧ (∀ q, lookupRank q m = lastRankFor resp q) := by
  obtain ⟨mOut, hrun, hlook, hmem, hnd⟩ := get_user_roles_aux_spec resp hwf []
  refine ⟨mOut, ?_, hnd (by simp), ?_, ?_⟩
  · simp [get_user_roles_body, harr, hrun]
  · intro q
    rw [hmem q]
    simp [lookupRank]
  · intro q
    rw [hlook q]
    cases hlr : lastRankFor resp q with
    | some r2 => rfl
    | none => rfl

def entryA : Json :=
  Json.obj [(kGroup, Json.obj [(kId, Json.num 10)]),
            (kRole, Json.obj [(kRank, Json.num 1)])]

def entryB : Json :=
  Json.obj [(kGroup, Json.obj [(kId, Json.num 20)]),
            (kRole, Json.obj [(kRank, Json.num 2)])]

def entryC : Json :=
  Json.obj [(kGroup, Json.obj [(kId, Json.num 10)]),
            (kRole, Json.obj [(kRank, Json.num 7)])]

def dupGroupsBody : Json := Json.obj [(kData, Json.arr [entryA, entryB, entryC])]

/-- Witness for C3 at a data array with a duplicated group id (10 appears
with ranks 1 and then 7; the map must keep the last). -/
theorem get_user_roles_rankmap_spec_witness :
    ∃ m, get_user_roles_body dupGroupsBody = some (Except.ok m)
      ∧ (m.map Prod.fst).Nodup
      ∧ (∀ q, q ∈ m.map Prod.fst ↔ ∃ j ∈ [entryA, entryB, entryC], gId j = some q)
      ∧ (∀ q, lookupRank q m = lastRankFor [entryA, entryB, entryC] q) :=
  get_user_roles_rankmap_spec dupGroupsBody [entryA, entryB, entryC] rfl (by decide)

theorem rankFilter_wf (mn mx : Int) : ∀ (a : List Json),
    (∀ r ∈ a, ((r.get kRank).as_i64).isSome) →
    rankFilter mn mx a = some (a.filter (rkInRange mn mx)) := by
  intro a
  induction a with
  | nil => intro _; rfl
  | cons r rest ih =>
    intro hwf
    obtain ⟨rank, hrank⟩ := Option.isSome_iff_exists.mp (hwf r (List.Mem.head _))
    have hrest := ih (fun x hx => hwf x (List.Mem.tail _ hx))
    simp only [rankFilter, hrank, hrest, List.filter_cons]
    by_cases hin : mn ≤ rank ∧ rank ≤ mx
    · simp [rkInRange, hrank, hin]
    · simp [rkInRange, hrank, hin]

/-- Claim C5: on a roles array whose every element has an integer rank,
`get_group_ranks` returns exactly the elements whose rank lies in the
closed interval, in original array order (the list filter), and an empty
sequence — not an error — when no element is in range. -/
theorem get_group_ranks_spec (body : Json) (mn mx : Int) (a : List Json)
    (ha : (body.get kRoles).as_array = some a)
    (hwf : ∀ r ∈ a, ((r.get kRank).as_i64).isSome) :
    get_group_ranks_body body mn mx = some (Except.ok (a.filter (rkInRange mn mx)))
    ∧ ((∀ r ∈ a, rkInRange mn mx r = false) →
        get_group_ranks_body body mn mx = some (Except.ok [])) := by
  have h1 : get_group_ranks_body body mn mx
      = some (Except.ok (a.filter (rkInRange mn mx))) := by
    simp [get_group_ranks_body, ha, rankFilter_wf mn mx a hwf]
  refine ⟨h1, fun hno => ?_⟩
  have h2 : a.filter (rkInRange mn mx) = [] :=
    List.filter_eq_nil_iff.mpr (fun x hx => by simp [hno x hx])
  rw [h1, h2]

/-- Witness for C5 at the spec's example: ranks 1, 2, 3, 5 filtered to
the interval from 2 to 4 give the rank-2 and rank-3 records in order. -/
theorem get_group_ranks_spec_witness :
    get_group_ranks_body rolesBody5 2 4 = some (Except.ok [roleR2, roleR3]) := by
  rw [(get_group_ranks_spec rolesBody5 2 4 [roleJ1, roleR2, roleR3, roleR5] rfl
    (by decide)).1]
  rfl

theorem rankFilter_mem (mn mx : Int) : ∀ (a out : List Json),
    rankFilter mn mx a = some out → ∀ r ∈ out, r ∈ a := by
  intro a
  induction a with
  | nil =>
    intro out h r hr
    simp only [rankFilter, Option.some.injEq] at h
    subst h
    cases hr
  | cons x rest ih =>
    intro out h r hr
    simp only [rankFilter] at h
    cases hx : (x.get kRank).as_i64 with
    | none =>
      rw [hx] at h
      cases h
    | some rank =>
      rw [hx] at h
      cases hrf : rankFilter mn mx rest with
      | none =>
        rw [hrf] at h
        cases h
      | some tail =>
        rw [hrf] at h
        have hout : (if mn ≤ rank ∧ rank ≤ mx then x :: tail else tail) = out :=
          Option.some.inj h
        by_cases hin : mn ≤ rank ∧ rank ≤ mx
        · rw [if_pos hin] at hout
          subst hout
          rcases List.mem_cons.mp hr with rfl | h2
          · exact List.Mem.head _
          · exact List.Mem.tail _ (ih tail hrf r h2)
        · rw [if_neg hin] at hout
          subst hout
          exact List.Mem.tail _ (ih tail hrf r hr)

/-- Claim C9: every role record returned by `get_group_rank` or
`get_group_ranks` is (structurally) an element of the source roles array
— the selection and filtering steps return the records unchanged. -/
theorem role_records_preserved :
    (∀ body rank_id r, get_group_rank_body body rank_id = Except.ok (some r) →
      ∃ a, (body.get kRoles).as_array = some a ∧ r ∈ a)
    ∧ (∀ body mn mx out, get_group_ranks_body body mn mx = some (Except.ok out) →
        ∀ r ∈ out, ∃ a, (body.get kRoles).as_array = some a ∧ r ∈ a) := by
  constructor
  · intro body rank_id r h
    cases ha : (body.get kRoles).as_array with
    | none => simp [get_group_rank_body, ha] at h
    | some a =>
      refine ⟨a, rfl, ?_⟩
      cases hf : a.find? (fun x => dRank x == rank_id) with
      | none => simp [get_group_rank_body, ha, hf] at h
      | some r2 =>
        have h2 : r2 = r := by
          simp [get_group_rank_body, ha, hf] at h
          exact h
        rw [← h2]
        exact List.mem_of_find?_eq_some hf
  · intro body mn mx out h r hr
    cases ha : (body.get kRoles).as_array with
    | none =>
      simp [get_group_ranks_body, ha] at h
      subst h
      cases hr
    | some a =>
      refine ⟨a, rfl, ?_⟩
      cases hrf : rankFilter mn mx a with
      | none => simp [get_group_ranks_body, ha, hrf] at h
      | some out2 =>
        have h2 : out2 = out := by
          simp [get_group_ranks_body, ha, hrf] at h
          exact h
        refine rankFilter_mem mn mx a out2 hrf r ?_
        rw [h2]
        exact hr

/-- Witness for C9: the record returned by `get_group_rank` on the
concrete roles body is an element of its roles array. -/
theorem role_records_preserved_witness :
    ∃ a, (rolesBody4.get kRoles).as_array = some a ∧ roleJX ∈ a :=
  role_records_preserved.1 rolesBody4 5 roleJX rfl
